import Mathlib

/-
  Verification development for the snippet-embedding script (embed.js) of the
  repository: a DOM/URL-level shallow embedding of the script's trust check,
  placeholder pipeline, fragment embedding and element cloning, together with
  theorems settling the specification's claims about them.
-/

/-! ## DOM model

A document subtree: element nodes carry a tag name, an attribute list
(name/value pairs, in document order) and a child list; text nodes carry raw
text.  Markup strings are identified with their parsed node lists (the model
of `innerHTML` assignment / `insertAdjacentHTML`): serializing and re-parsing
a subtree is the identity in this model.  `NodeList` is a bespoke list type so
that all DOM operations are structurally recursive and compute. -/

mutual
inductive Node where
  | elem (tag : String) (attrs : List (String × String)) (children : NodeList)
  | text (s : String)
inductive NodeList where
  | nil
  | cons (hd : Node) (tl : NodeList)
end

def NodeList.append : NodeList → NodeList → NodeList
  | .nil, ys => ys
  | .cons x xs, ys => .cons x (xs.append ys)

instance : Append NodeList := ⟨NodeList.append⟩

/-- A one-element node list. -/
def NodeList.one (n : Node) : NodeList := .cons n .nil

def NodeList.length : NodeList → Nat
  | .nil => 0
  | .cons _ tl => tl.length + 1

def NodeList.map (f : Node → Node) : NodeList → NodeList
  | .nil => .nil
  | .cons x xs => .cons (f x) (map f xs)

def NodeList.all (p : Node → Bool) : NodeList → Bool
  | .nil => true
  | .cons x xs => p x && all p xs

/-- Pointwise predicate over a node list. -/
def NodeList.Forall (P : Node → Prop) : NodeList → Prop
  | .nil => True
  | .cons x xs => P x ∧ Forall P xs

/-- ASCII lower-casing of a character (the relevant case for tag names). -/
def lcChar (c : Char) : Char :=
  if 'A' ≤ c ∧ c ≤ 'Z' then Char.ofNat (c.toNat + 32) else c

/-- ASCII upper-casing of a character. -/
def ucChar (c : Char) : Char :=
  if 'a' ≤ c ∧ c ≤ 'z' then Char.ofNat (c.toNat - 32) else c

/-- ASCII lower-casing of a string. -/
def strLower (s : String) : String := ⟨s.data.map lcChar⟩

/-- ASCII upper-casing of a string. -/
def strUpper (s : String) : String := ⟨s.data.map ucChar⟩

/-- `Element.tagName`: reported upper-case for HTML elements. -/
def tagNameOf (t : String) : String := strUpper t

/-- `document.createElement` normalizes the given tag name to lower case in an
HTML document. -/
def createElementTag (t : String) : String := strLower t

/-- All elements in the forest (roots and descendants, pre-order = document
order) whose tag matches the tag selector `sel`; models the static NodeList
of `container.querySelectorAll(sel)` for a tag selector over
parser-canonical (lower-case-tag) DOM trees. -/
def matchedIn (sel : String) : NodeList → NodeList
  | .nil => .nil
  | .cons (.text _) tl => matchedIn sel tl
  | .cons (.elem t a cs) tl =>
      (if t == sel then NodeList.one (.elem t a cs) else .nil)
        ++ matchedIn sel cs ++ matchedIn sel tl

/-- Remove every element matching `sel` (with its subtree) from the forest;
models calling `selected.remove()` on each element of the NodeList. -/
def removeMatched (sel : String) : NodeList → NodeList
  | .nil => .nil
  | .cons (.text s) tl => .cons (.text s) (removeMatched sel tl)
  | .cons (.elem t a cs) tl =>
      if t == sel then removeMatched sel tl
      else .cons (.elem t a (removeMatched sel cs)) (removeMatched sel tl)

/-- `element.setAttribute(k, v)`: replaces the value if the name is present,
otherwise appends the pair. -/
def setAttrModel (attrs : List (String × String)) (k v : String) :
    List (String × String) :=
  if attrs.any (fun p => p.1 == k) then
    attrs.map (fun p => if p.1 == k then (k, v) else p)
  else attrs ++ [(k, v)]

/-- The `getAttributeNames().forEach(.. setAttribute ..)` loop of
`getClonedElements`, starting from a freshly created (attribute-less)
element. -/
def copyAttrs (src : List (String × String)) : List (String × String) :=
  src.foldl (fun acc p => setAttrModel acc p.1 p.2) []

/-- The per-element body of `getClonedElements`:
`document.createElement(selected.tagName)` (upper-cased by `tagName`,
lower-cased back by `createElement`), the attribute copy loop, then
`element.innerHTML = selected.innerHTML` (child copy in this model). -/
def cloneElementOf : Node → Node
  | .elem t a cs => .elem (createElementTag (tagNameOf t)) (copyAttrs a) cs
  | .text s => .text s

/-- `getClonedElements(container, selector, remove)` on a container with the
given child forest: returns the clone array and the container's child forest
afterwards. -/
def getClonedElements (children : NodeList) (sel : String) (remove : Bool) :
    NodeList × NodeList :=
  ((matchedIn sel children).map cloneElementOf,
   if remove then removeMatched sel children else children)

/-- Split a sibling forest at its first element node (the
`nextElementSibling` of a node placed just before the forest): leading
non-element nodes, the element, the rest.  `none` when no element node
exists. -/
def splitAtFirstElem : NodeList → Option (NodeList × Node × NodeList)
  | .nil => none
  | .cons (.text s) tl =>
      (splitAtFirstElem tl).map (fun pr => (.cons (.text s) pr.1, pr.2.1, pr.2.2))
  | .cons (.elem t a cs) tl => some (.nil, .elem t a cs, tl)

/-- `placeholder.nextElementSibling.prepend(...els)` where the forest is the
siblings following the placeholder: prepend `els` to the children of the
first element node.  `none` models the TypeError thrown when
`nextElementSibling` is `null`. -/
def prependIntoFirstElem (els : NodeList) : NodeList → Option NodeList
  | .nil => none
  | .cons (.text s) tl =>
      (prependIntoFirstElem els tl).map (fun r => .cons (.text s) r)
  | .cons (.elem t a cs) tl => some (.cons (.elem t a (els ++ cs)) tl)

/-- The script clones extracted first by `embedElement`
(`getClonedElements(temp, 'script', true)`). -/
def scriptClones (frag : NodeList) : NodeList :=
  (matchedIn "script" frag).map cloneElementOf

/-- The link clones extracted second, from the container after script removal
(`getClonedElements(temp, 'link', true)`). -/
def linkClones (frag : NodeList) : NodeList :=
  (matchedIn "link" (removeMatched "script" frag)).map cloneElementOf

/-- The container's remaining child forest after both extractions: the static
markup inserted by `insertAdjacentHTML('afterend', temp.innerHTML)`. -/
def staticRemainder (frag : NodeList) : NodeList :=
  removeMatched "link" (removeMatched "script" frag)

/-- `embedElement(placeholder, sourceHTML)` acting on the parsed fragment
`fragNodes`, with `after` the sibling forest following the placeholder.
Returns `(true, newAfter)` on normal completion and `(false, partial)` when
`placeholder.nextElementSibling` is `null` and the `prepend` call throws —
the insertion performed by `insertAdjacentHTML` has already happened at that
point and is kept in the result.  The scripts are prepended first and the
links after them, so the final child order is links, then scripts, then the
element's previous children. -/
def embedElementRun (fragNodes after : NodeList) : Bool × NodeList :=
  let scriptPair := getClonedElements fragNodes "script" true
  let linkPair := getClonedElements scriptPair.2 "link" true
  let seq := linkPair.2 ++ after
  match prependIntoFirstElem (linkPair.1 ++ scriptPair.1) seq with
  | some r => (true, r)
  | none => (false, seq)

/-! ## URL and trust model

`new URL(url, base)` (WHATWG URL constructor) modelled for the scheme-style
URLs the script deals with: `scheme://host[:port][/...]` absolute URLs,
protocol-relative `//...` references and path-style relative references.
Crucially — and this is what several claims turn on — the constructor parses
the *base* first and throws (`none` here) when the base is not itself a valid
absolute URL, even when `url` is absolute.  Schemes and hostnames are
lower-cased as the real parser does.  Out of the modelled subset (and
returned as parse failures) are IPv6 host brackets and user-info;
scheme-only opaque-path URLs (`mailto:x`) are likewise not modelled — none
occur in the script's intended inputs. -/

/-- The origin components of a parsed URL. -/
structure ParsedURL where
  protocol : String
  hostname : String
  port : String
deriving DecidableEq

/-- Split a character list at the first occurrence of `"://"`. -/
def splitScheme : List Char → Option (List Char × List Char)
  | [] => none
  | ':' :: '/' :: '/' :: rest => some ([], rest)
  | c :: rest => (splitScheme rest).map (fun p => (c :: p.1, p.2))

/-- Characters allowed in a URL scheme. -/
def isSchemeChar (c : Char) : Bool :=
  c.isAlphanum || c == '+' || c == '-' || c == '.'

/-- Parse an absolute URL of the form `scheme://authority[/?#...]`. -/
def parseAbsoluteURL (s : String) : Option ParsedURL :=
  match splitScheme s.data with
  | none => none
  | some (schemeChars, rest) =>
    match schemeChars with
    | [] => none
    | c :: cs =>
      if c.isAlpha ∧ (c :: cs).all isSchemeChar then
        let authority := rest.takeWhile fun ch =>
          ch != '/' && ch != '?' && ch != '#'
        let host := authority.takeWhile (· != ':')
        let colonPart := authority.dropWhile (· != ':')
        let port := colonPart.drop 1
        if host ≠ [] ∧ ¬ port.contains ':' ∧ port.all Char.isDigit then
          some ⟨strLower ⟨schemeChars⟩ ++ ":", strLower ⟨host⟩, ⟨port⟩⟩
        else none
      else none

/-- `new URL(url, base)`: parse the base (throw on failure), then parse `url`
absolutely, as a protocol-relative reference, or as a reference relative to
the base (inheriting the base's origin). -/
def parseURLWithBase (url base : String) : Option ParsedURL :=
  match parseAbsoluteURL base with
  | none => none
  | some b =>
    match parseAbsoluteURL url with
    | some u => some u
    | none =>
      match url.data with
      | '/' :: '/' :: _ => parseAbsoluteURL (b.protocol ++ url)
      | _ => some b

/-- The serialized origin of a parsed URL (scheme + host + optional port). -/
def originOf (p : ParsedURL) : String :=
  p.protocol ++ "//" ++ p.hostname ++ (if p.port = "" then "" else ":" ++ p.port)

/-- `const domain = document.currentScript.getAttribute('data-domain') ||
window.location.hostname`: `getAttribute` yields `null` (here `none`) when
the attribute is absent, and the empty string is falsy. -/
def scriptDomain : Option String → String → String
  | some d, locHost => if d = "" then locHost else d
  | none, locHost => locHost

/-- JavaScript `navigator.language.split('-')[0]`. -/
def langOf (s : String) : String := ⟨s.data.takeWhile (· != '-')⟩

/-- The insecure-protocol alert message, selected from the browser language
(Spanish for `es`, English otherwise), verbatim from the source. -/
def warningMessage (navLanguage : String) : String :=
  if langOf navLanguage = "es" then
    "Esta página contiene conexiones no seguras. Pulse aceptar para ignorar."
  else
    "This page cotains unsecure connections. Press accept to ignore."

/-- Outcome of the `try { new URL .. } catch` validation block of
`embedElements` for one placeholder. -/
inductive ValidateResult where
  | invalid
  | untrusted
  | proceed (alerted : Option String)
deriving DecidableEq

/-- The validation logic after a successful `new URL(url, domain)`:
`if (parsedURL.hostname != domain) return;` then the `http:` alert. -/
def checkParsedURL (parsed : ParsedURL) (domain navLanguage : String) :
    ValidateResult :=
  if parsed.hostname ≠ domain then .untrusted
  else .proceed
    (if parsed.protocol = "http:" then some (warningMessage navLanguage)
     else none)

/-- The whole validation block: `new URL(url, domain)` throwing lands in the
`catch` (logged, placeholder ignored). -/
def validateURL (url domain navLanguage : String) : ValidateResult :=
  match parseURLWithBase url domain with
  | none => .invalid
  | some p => checkParsedURL p domain navLanguage

/-- Whether validation lets the placeholder proceed to the fetch. -/
def codeIsTrusted (url domain navLanguage : String) : Bool :=
  match validateURL url domain navLanguage with
  | .proceed _ => true
  | _ => false

/-! ## Per-placeholder pipeline

The `fetch(url, ..).then(..).then(..).catch(..)` chain of `embedElements`,
with the network result supplied as an explicit outcome.  A `response`
outcome carries the body both as the text the script inspects (`sourceHTML`)
and as its parsed node list (the `temp.innerHTML = sourceHTML` parse) — two
views of the same body. -/

/-- JavaScript `String.prototype.trim`. -/
def jsTrim (s : String) : String :=
  ⟨((s.data.dropWhile Char.isWhitespace).reverse.dropWhile
      Char.isWhitespace).reverse⟩

/-- Result of one placeholder's fetch: a network-level rejection, or an HTTP
response with its `ok` flag and body. -/
inductive FetchOutcome where
  | networkError
  | response (ok : Bool) (bodyText : String) (bodyNodes : NodeList)

/-- Net effect of the response-handling chain on one placeholder: whether
`placeholder.remove()` ran, whether the `catch` handler logged, and the
sibling forest following the placeholder's position afterwards. -/
structure StepResult where
  removed : Bool
  logged : Bool
  newAfter : NodeList

/-- The two `.then` handlers and the `.catch`: non-`ok` responses throw into
the `catch` (logged, placeholder kept); an empty-after-trim body skips
`embedElement` but still removes the placeholder; otherwise `embedElement`
runs and, only if it completes, the placeholder is removed — a throw inside
it reaches the `catch` with the partial insertion kept. -/
def stepResponse : FetchOutcome → NodeList → StepResult
  | .networkError, after => ⟨false, true, after⟩
  | .response ok bodyText bodyNodes, after =>
    if ok then
      if jsTrim bodyText = "" then ⟨true, false, after⟩
      else
        match embedElementRun bodyNodes after with
        | (true, na) => ⟨true, false, na⟩
        | (false, na) => ⟨false, true, na⟩
    else ⟨false, true, after⟩

/-- Overall effect on one placeholder: removal, console logging, the alert
shown during validation (if any), and the following sibling forest. -/
structure PlaceholderResult where
  removed : Bool
  logged : Bool
  alerted : Option String
  newAfter : NodeList

/-- Dispatch on the validation outcome: an invalid URL is logged and the
placeholder skipped; an untrusted URL is skipped silently; otherwise the
fetch pipeline runs (the alert, having been dismissed, blocks nothing). -/
def afterValidation : ValidateResult → FetchOutcome → NodeList →
    PlaceholderResult
  | .invalid, _, after => ⟨false, true, none, after⟩
  | .untrusted, _, after => ⟨false, false, none, after⟩
  | .proceed al, outcome, after =>
    let r := stepResponse outcome after
    ⟨r.removed, r.logged, al, r.newAfter⟩

/-- The whole per-placeholder body of `embedElements`. -/
def processPlaceholder (url domain navLanguage : String)
    (outcome : FetchOutcome) (after : NodeList) : PlaceholderResult :=
  afterValidation (validateURL url domain navLanguage) outcome after

/-- `embedElements(attributeName)`: every discovered placeholder is processed
by its own independent chain; one entry per placeholder, each carrying its
`data-embedsrc` value, its fetch outcome and its following sibling forest. -/
def embedElementsModel (domain navLanguage : String)
    (items : List (String × FetchOutcome × NodeList)) :
    List PlaceholderResult :=
  items.map fun it => processPlaceholder it.1 domain navLanguage it.2.1 it.2.2

/-- Modelled from the spec, for comparison with the code's check: "An
absolute URL is trusted iff its origin exactly equals the current document's
origin OR equals one of the explicitly configured trusted origins", with the
candidate resolved against the document location. -/
def spec_isTrusted (url docLocation : String)
    (trustedOrigins : List String) : Bool :=
  match parseAbsoluteURL docLocation, parseURLWithBase url docLocation with
  | some d, some p =>
      originOf p == originOf d || trustedOrigins.contains (originOf p)
  | _, _ => false

/-! ## Auxiliary lemmas -/

@[induction_eliminator]
theorem NodeList.inductionOn {P : NodeList → Prop} (h0 : P .nil)
    (h1 : ∀ n tl, P tl → P (.cons n tl)) : ∀ l, P l
  | .nil => h0
  | .cons n tl => h1 n tl (inductionOn h0 h1 tl)

theorem NodeList.nil_append (l : NodeList) : .nil ++ l = l := rfl

theorem NodeList.cons_append (n : Node) (l m : NodeList) :
    .cons n l ++ m = .cons n (l ++ m) := rfl

theorem NodeList.append_nil (l : NodeList) : l ++ .nil = l := by
  induction l with
  | h0 => rfl
  | h1 n tl ih => rw [NodeList.cons_append, ih]

theorem NodeList.append_assoc (a b c : NodeList) :
    a ++ b ++ c = a ++ (b ++ c) := by
  induction a with
  | h0 => rfl
  | h1 n tl ih => rw [NodeList.cons_append, NodeList.cons_append, ih,
      NodeList.cons_append]

theorem NodeList.append_eq_nil {a b : NodeList} (h : a ++ b = .nil) :
    a = .nil ∧ b = .nil := by
  cases a with
  | nil => exact ⟨rfl, h⟩
  | cons n tl => exact absurd h (by rw [NodeList.cons_append]; intro hc; cases hc)

theorem NodeList.map_append (f : Node → Node) (a b : NodeList) :
    (a ++ b).map f = a.map f ++ b.map f := by
  induction a with
  | h0 => rfl
  | h1 n tl ih => rw [NodeList.cons_append, NodeList.map, NodeList.map, ih,
      NodeList.cons_append]

theorem NodeList.forall_append {P : Node → Prop} {a b : NodeList} :
    NodeList.Forall P (a ++ b) ↔ NodeList.Forall P a ∧ NodeList.Forall P b := by
  induction a with
  | h0 => simp [NodeList.Forall, NodeList.nil_append]
  | h1 n tl ih => rw [NodeList.cons_append]; simp [NodeList.Forall, ih, and_assoc]

theorem NodeList.all_iff_forall {p : Node → Bool} {l : NodeList} :
    NodeList.all p l = true ↔ NodeList.Forall (fun x => p x = true) l := by
  induction l with
  | h0 => simp [NodeList.all, NodeList.Forall]
  | h1 n tl ih => simp [NodeList.all, NodeList.Forall, ih]

theorem NodeList.map_eq_self_of_forall {f : Node → Node} {l : NodeList}
    (h : NodeList.Forall (fun x => f x = x) l) : l.map f = l := by
  induction l with
  | h0 => rfl
  | h1 n tl ih =>
      obtain ⟨hn, htl⟩ := h
      rw [NodeList.map, hn, ih htl]

theorem matchedIn_append (sel : String) (a b : NodeList) :
    matchedIn sel (a ++ b) = matchedIn sel a ++ matchedIn sel b := by
  induction a with
  | h0 => rfl
  | h1 n tl ih =>
      cases n with
      | text s => rw [NodeList.cons_append]; simpa [matchedIn] using ih
      | elem t at1 cs =>
          rw [NodeList.cons_append]
          simp only [matchedIn, ih, NodeList.append_assoc]

/-- Detaching every `sel`-matching element leaves a forest with no
`sel`-matching element. -/
theorem matchedIn_removeMatched_self (sel : String) (l : NodeList) :
    matchedIn sel (removeMatched sel l) = .nil := by
  induction l using removeMatched.induct sel with
  | case1 => rfl
  | case2 s tl ih => simpa [removeMatched, matchedIn] using ih
  | case3 t a cs tl h ihtl => simpa [removeMatched, h] using ihtl
  | case4 t a cs tl h ihcs ihtl =>
      rw [removeMatched, if_neg h, matchedIn, ihcs, ihtl, if_neg h]
      rfl

/-- Removing elements of another tag cannot create a `sel` match. -/
theorem matchedIn_removeMatched_of_nil {sel : String} (other : String)
    {l : NodeList} (h : matchedIn sel l = .nil) :
    matchedIn sel (removeMatched other l) = .nil := by
  induction l using removeMatched.induct other with
  | case1 => rfl
  | case2 s tl ih =>
      rw [matchedIn] at h
      rw [removeMatched, matchedIn]
      exact ih h
  | case3 t a cs tl ht ihtl =>
      rw [matchedIn] at h
      obtain ⟨h1, h2⟩ := NodeList.append_eq_nil h
      rw [removeMatched, if_pos ht]
      exact ihtl h2
  | case4 t a cs tl ht ihcs ihtl =>
      rw [matchedIn] at h
      obtain ⟨h1, h2⟩ := NodeList.append_eq_nil h
      obtain ⟨h1a, h1b⟩ := NodeList.append_eq_nil h1
      rw [removeMatched, if_neg ht, matchedIn, ihcs h1b, ihtl h2,
        NodeList.append_nil, NodeList.append_nil]
      by_cases hts : (t == sel) = true
      · rw [if_pos hts] at h1a
        exact absurd h1a (by intro hc; cases hc)
      · rw [if_neg hts]

/-- Every element of the match list has the selector as its tag. -/
theorem matchedIn_shape (sel : String) (l : NodeList) :
    NodeList.Forall (fun n => ∃ a cs, n = .elem sel a cs)
      (matchedIn sel l) := by
  induction l using matchedIn.induct sel with
  | case1 => trivial
  | case2 s tl ih => simpa [matchedIn] using ih
  | case3 t a cs tl ihcs ihtl =>
      simp only [matchedIn]
      rw [NodeList.forall_append, NodeList.forall_append]
      refine ⟨⟨?_, ihcs⟩, ihtl⟩
      by_cases h : t == sel
      · rw [if_pos h]
        exact ⟨⟨a, cs, by rw [eq_of_beq h]⟩, trivial⟩
      · rw [if_neg h]; trivial

/-- A successful `nextElementSibling` split determines the effect of the
`prepend` calls. -/
theorem prependIntoFirstElem_of_split {l pre post : NodeList} {t : String}
    {a : List (String × String)} {cs : NodeList} (els : NodeList)
    (h : splitAtFirstElem l = some (pre, .elem t a cs, post)) :
    prependIntoFirstElem els l =
      some (pre ++ .cons (.elem t a (els ++ cs)) post) := by
  induction l using splitAtFirstElem.induct generalizing pre post with
  | case1 => cases h
  | case2 s tl ih =>
      rw [splitAtFirstElem] at h
      obtain ⟨pr, hpr, hmk⟩ := Option.map_eq_some'.mp h
      obtain ⟨pre', e', post'⟩ := pr
      simp only [Prod.mk.injEq] at hmk
      obtain ⟨h1, h2, h3⟩ := hmk
      subst h2 h3
      rw [← h1, prependIntoFirstElem, ih hpr, Option.map_some',
        NodeList.cons_append]
  | case3 t' a' cs' tl =>
      rw [splitAtFirstElem] at h
      injection h with hv
      simp only [Prod.mk.injEq] at hv
      obtain ⟨h1, h2, h3⟩ := hv
      injection h2 with ht ha hcs
      subst ht ha hcs h3
      rw [← h1]
      rfl

/-- Without a following element node, the `prepend` call throws. -/
theorem prependIntoFirstElem_none_of_split_none {l : NodeList}
    (els : NodeList) (h : splitAtFirstElem l = none) :
    prependIntoFirstElem els l = none := by
  induction l using splitAtFirstElem.induct with
  | case1 => rfl
  | case2 s tl ih =>
      rw [splitAtFirstElem, Option.map_eq_none'] at h
      rw [prependIntoFirstElem, ih h]
      rfl
  | case3 t' a' cs' tl => cases h

/-- A successful split is a decomposition of the forest. -/
theorem splitAtFirstElem_decomp {l pre post : NodeList} {e : Node}
    (h : splitAtFirstElem l = some (pre, e, post)) :
    l = pre ++ .cons e post := by
  induction l using splitAtFirstElem.induct generalizing pre post with
  | case1 => cases h
  | case2 s tl ih =>
      rw [splitAtFirstElem] at h
      obtain ⟨pr, hpr, hmk⟩ := Option.map_eq_some'.mp h
      obtain ⟨pre', e', post'⟩ := pr
      simp only [Prod.mk.injEq] at hmk
      obtain ⟨h1, h2, h3⟩ := hmk
      subst h2 h3
      rw [← h1, NodeList.cons_append, ← ih hpr]
  | case3 t' a' cs' tl =>
      rw [splitAtFirstElem] at h
      injection h with hv
      simp only [Prod.mk.injEq] at hv
      obtain ⟨h1, h2, h3⟩ := hv
      subst h2 h3
      rw [← h1]
      rfl

/-- In a forest free of `sel` matches, prepending `els` into the first
element makes the `sel` matches exactly those of `els`. -/
theorem matchedIn_after_prepend {sel : String} {l pre post : NodeList}
    {t : String} {a : List (String × String)} {cs : NodeList}
    (els : NodeList) (hclean : matchedIn sel l = .nil)
    (h : splitAtFirstElem l = some (pre, .elem t a cs, post)) :
    matchedIn sel (pre ++ .cons (.elem t a (els ++ cs)) post) =
      matchedIn sel els := by
  have hdec := splitAtFirstElem_decomp h
  rw [hdec, matchedIn_append, matchedIn] at hclean
  obtain ⟨hpre, hrest⟩ := NodeList.append_eq_nil hclean
  obtain ⟨hic, hpost⟩ := NodeList.append_eq_nil hrest
  obtain ⟨hif, hcs⟩ := NodeList.append_eq_nil hic
  have hts : ¬ (t == sel) = true := by
    intro hts
    rw [if_pos hts] at hif
    cases hif
  simp only [matchedIn_append, hpre, matchedIn, if_neg hts, hcs, hpost,
    NodeList.nil_append, NodeList.append_nil]

/-- The `setAttribute` copy loop over distinct attribute names reproduces the
source attribute list exactly. -/
theorem foldl_setAttr_of_nodup (l : List (String × String)) :
    ∀ acc : List (String × String),
      ((acc ++ l).map Prod.fst).Nodup →
      l.foldl (fun ac p => setAttrModel ac p.1 p.2) acc = acc ++ l := by
  induction l with
  | nil => intro acc _; simp
  | cons p tl ih =>
      intro acc h
      have hmem : p.1 ∉ acc.map Prod.fst := by
        have hdisj : (acc.map Prod.fst).Disjoint ((p :: tl).map Prod.fst) := by
          rw [List.map_append] at h
          exact List.disjoint_of_nodup_append h
        intro hc
        exact hdisj hc (by simp)
      have hany : ¬ acc.any (fun q => q.1 == p.1) = true := by
        rw [List.any_eq_true]
        rintro ⟨q, hq, hqe⟩
        exact hmem (List.mem_map.mpr ⟨q, hq, eq_of_beq hqe⟩)
      have hstep : setAttrModel acc p.1 p.2 = acc ++ [p] := by
        rw [setAttrModel, if_neg hany]
      rw [List.foldl_cons, hstep, ih (acc ++ [p]) (by simpa using h)]
      simp

/-- `copyAttrs` is the identity on attribute lists with distinct names. -/
theorem copyAttrs_eq_self {src : List (String × String)}
    (h : (src.map Prod.fst).Nodup) : copyAttrs src = src := by
  have := foldl_setAttr_of_nodup src [] (by simpa using h)
  simpa [copyAttrs] using this

/-- The clone of a matched element with parser-canonical tag and distinct
attribute names is identical to it: same tag, same attributes, same inner
content. -/
theorem cloneElementOf_eq_self {sel : String} {a : List (String × String)}
    {cs : NodeList} (hsel : createElementTag (tagNameOf sel) = sel)
    (ha : (a.map Prod.fst).Nodup) :
    cloneElementOf (.elem sel a cs) = .elem sel a cs := by
  rw [cloneElementOf, hsel, copyAttrs_eq_self ha]

/-- Whether a node list is empty. -/
def NodeList.isNil : NodeList → Bool
  | .nil => true
  | .cons _ _ => false

theorem NodeList.isNil_iff {l : NodeList} : l.isNil = true ↔ l = .nil := by
  cases l with
  | nil => simp [NodeList.isNil]
  | cons n tl =>
      simp only [NodeList.isNil, Bool.false_eq_true, false_iff]
      intro hc
      cases hc

/-- An element whose subtree contains no further script or link elements (the
shape every active element has in parser-produced DOM: script bodies are raw
text and links are void). -/
def cleanChildren : Node → Bool
  | .elem _ _ cs =>
      (matchedIn "script" cs).isNil && (matchedIn "link" cs).isNil
  | .text _ => true

/-- An element whose attribute names are pairwise distinct (guaranteed for
parser-produced elements, which drop duplicate attributes). -/
def attrsOK : Node → Bool
  | .elem _ a _ => decide ((a.map Prod.fst).Nodup)
  | .text _ => true

theorem NodeList.forall_map {P Q : Node → Prop} {f : Node → Node}
    (h : ∀ n, P n → Q (f n)) :
    ∀ {l : NodeList}, NodeList.Forall P l → NodeList.Forall Q (l.map f) := by
  intro l
  induction l with
  | h0 => intro _; trivial
  | h1 n tl ih =>
      rintro ⟨hn, htl⟩
      exact ⟨h n hn, ih htl⟩

theorem NodeList.forall_combine {P Q : Node → Prop} :
    ∀ {l : NodeList}, NodeList.Forall P l → NodeList.Forall Q l →
      NodeList.Forall (fun x => P x ∧ Q x) l := by
  intro l
  induction l with
  | h0 => intro _ _; trivial
  | h1 n tl ih =>
      rintro ⟨hp, hps⟩ ⟨hq, hqs⟩
      exact ⟨⟨hp, hq⟩, ih hps hqs⟩

theorem NodeList.forall_weaken {P Q : Node → Prop} (h : ∀ n, P n → Q n) :
    ∀ {l : NodeList}, NodeList.Forall P l → NodeList.Forall Q l := by
  intro l
  induction l with
  | h0 => intro _; trivial
  | h1 n tl ih =>
      rintro ⟨hp, hps⟩
      exact ⟨h n hp, ih hps⟩

/-- A list of `sel`-rooted elements with `sel`-clean subtrees is its own
match list: each occurs exactly once, in order. -/
theorem matchedIn_of_matching_roots {sel : String} :
    ∀ {ns : NodeList},
      NodeList.Forall (fun n => ∃ a cs, n = .elem sel a cs ∧
        matchedIn sel cs = .nil) ns →
      matchedIn sel ns = ns := by
  intro ns
  induction ns with
  | h0 => intro _; rfl
  | h1 n tl ih =>
      rintro ⟨⟨a, cs, rfl, hclean⟩, htl⟩
      rw [matchedIn, if_pos (beq_self_eq_true sel), hclean, ih htl,
        NodeList.append_nil]
      rfl

/-- A list of non-`sel`-rooted elements with `sel`-clean subtrees contributes
no `sel` match. -/
theorem matchedIn_of_other_roots {sel : String} :
    ∀ {ns : NodeList},
      NodeList.Forall (fun n => ∃ t a cs, n = .elem t a cs ∧
        (t == sel) = false ∧ matchedIn sel cs = .nil) ns →
      matchedIn sel ns = .nil := by
  intro ns
  induction ns with
  | h0 => intro _; rfl
  | h1 n tl ih =>
      rintro ⟨⟨t, a, cs, rfl, hne, hclean⟩, htl⟩
      rw [matchedIn, if_neg (by simp [hne]), hclean, ih htl,
        NodeList.append_nil]
      rfl

/-- `embedElement` in closed form: clone-and-detach scripts, then links,
insert the remainder after the placeholder and prepend the clones (links
before scripts) into the first following element. -/
theorem embedElementRun_eq (frag after : NodeList) :
    embedElementRun frag after =
      match prependIntoFirstElem (linkClones frag ++ scriptClones frag)
          (staticRemainder frag ++ after) with
      | some r => (true, r)
      | none => (false, staticRemainder frag ++ after) := rfl

/-! ## Claims -/

/-- Claim C1.  The claim says a candidate URL whose resolved origin equals
the document origin is always accepted, whatever trust declarations exist.
The code refutes it (contradicting its own header comment "The document's
hostname is always accepted as valid"): for a document at
`https://example.com`, the same-origin candidate
`https://example.com/frag.html` — whose resolved origin provably equals the
document origin, first two conjuncts — is rejected as untrusted when a
`data-domain="https://trusted.ext"` declaration is present (the hostname is
compared against the raw declaration string), and is rejected as invalid
when no declaration is present (the bare hostname `example.com` is then used
as the base of `new URL`, which throws on an invalid base even for absolute
candidates). -/
theorem c1_same_origin_rejected :
    (parseURLWithBase "https://example.com/frag.html"
      "https://example.com/").map originOf = some "https://example.com" ∧
    (parseAbsoluteURL "https://example.com/").map originOf =
      some "https://example.com" ∧
    validateURL "https://example.com/frag.html"
      (scriptDomain (some "https://trusted.ext") "example.com") "en" =
      .untrusted ∧
    validateURL "https://example.com/frag.html"
      (scriptDomain none "example.com") "en" = .invalid ∧
    codeIsTrusted "https://example.com/frag.html"
      (scriptDomain (some "https://trusted.ext") "example.com") "en" = false ∧
    codeIsTrusted "https://example.com/frag.html"
      (scriptDomain none "example.com") "en" = false := by
  refine ⟨by decide, by decide, by decide, by decide, by decide, by decide⟩

/-- Claim C2 counterexample.  The claim's origin-equality trust criterion
(`spec_isTrusted`, spelled from the spec) disagrees with the code's check at
a concrete input: a same-origin candidate on a document at
`https://example.com` with an empty allowlist is trusted per the claim but
rejected by the code. -/
theorem c2_counterexample :
    spec_isTrusted "https://example.com/frag.html" "https://example.com/" []
      = true ∧
    codeIsTrusted "https://example.com/frag.html"
      (scriptDomain none "example.com") "en" = false := by
  refine ⟨by decide, by decide⟩

/-- Claim C2, amended.  The code's trust decision compares only the parsed
candidate's hostname with the single configured domain string (the
`data-domain` value if non-empty, else the document hostname), after
resolving the candidate with that very string as base URL: first conjunct.
Scheme and port play no part in the comparison: second conjunct — two parsed
URLs agreeing in hostname receive the same trust decision whatever their
protocols and ports. -/
theorem c2_amended_hostname_only_trust :
    (∀ url domain navLanguage : String,
      codeIsTrusted url domain navLanguage =
        (parseURLWithBase url domain).elim false
          (fun p => p.hostname == domain)) ∧
    (∀ pr1 pr2 po1 po2 host domain navLanguage : String,
      (checkParsedURL ⟨pr1, host, po1⟩ domain navLanguage ≠ .untrusted) ↔
      (checkParsedURL ⟨pr2, host, po2⟩ domain navLanguage ≠ .untrusted)) := by
  constructor
  · intro url domain navLanguage
    unfold codeIsTrusted validateURL
    cases hp : parseURLWithBase url domain with
    | none => rfl
    | some p =>
        by_cases hh : p.hostname = domain
        · simp [checkParsedURL, hh, Option.elim]
        · simp [checkParsedURL, hh, Option.elim]
  · intro pr1 pr2 po1 po2 host domain navLanguage
    simp only [checkParsedURL]
    by_cases hh : host = domain
    · simp [hh]
    · simp [hh]

/-- Claim C3.  The claim (and the script's own usage comment, which promises
that a placeholder with a relative `data-embedsrc` such as `/frag.html` is
replaced by the fetched snippet) fails on the code: with no `data-domain`,
the bare document hostname `example.com` is passed as the base of
`new URL("/frag.html", domain)`, which throws; the error is logged and the
placeholder is skipped, so nothing is ever fetched or embedded — even when a
successful response carrying scenario A's fragment
(`<p>hi</p><script>window.__x=1</script>`) is supplied, the run leaves the
placeholder in place and the document unchanged. -/
theorem c3_relative_url_never_embeds :
    validateURL "/frag.html" (scriptDomain none "example.com") "en" =
      .invalid ∧
    processPlaceholder "/frag.html" (scriptDomain none "example.com") "en"
      (.response true "<p>hi</p><script>window.__x=1</script>"
        (.cons (.elem "p" [] (NodeList.one (.text "hi")))
          (NodeList.one (.elem "script" []
            (NodeList.one (.text "window.__x=1"))))))
      .nil =
      ⟨false, true, none, .nil⟩ := by
  refine ⟨by decide, rfl⟩

/-- Claim C7.  A successful response whose body is empty or whitespace-only
skips `embedElement` (the following sibling forest is unchanged — nothing is
inserted) but still removes the placeholder, without logging. -/
theorem c7_empty_body_removes_placeholder (bodyText : String)
    (bodyNodes after : NodeList) (h : jsTrim bodyText = "") :
    stepResponse (.response true bodyText bodyNodes) after =
      ⟨true, false, after⟩ := by
  simp [stepResponse, h]

/-- Witness for C7 at a whitespace-only body. -/
theorem c7_empty_body_removes_placeholder_witness :
    stepResponse (.response true "  \n " .nil)
      (NodeList.one (.elem "div" [] .nil)) =
      ⟨true, false, NodeList.one (.elem "div" [] .nil)⟩ :=
  c7_empty_body_removes_placeholder "  \n " .nil _ (by decide)

/-- Claim C8.  An unparsable candidate URL is logged and its placeholder kept
untouched (first conjunct); a network-level fetch failure, and a non-`ok`
HTTP response, are logged and keep the placeholder untouched (second and
third conjuncts); and the pass is total and per-placeholder — every
placeholder's entry is processed to a result, independent of the others
(fourth conjunct), so no failure aborts the processing of the rest. -/
theorem c8_failures_logged_and_skipped :
    (∀ url domain navLanguage outcome after,
      parseURLWithBase url domain = none →
      processPlaceholder url domain navLanguage outcome after =
        ⟨false, true, none, after⟩) ∧
    (∀ after, stepResponse .networkError after = ⟨false, true, after⟩) ∧
    (∀ bodyText bodyNodes after,
      stepResponse (.response false bodyText bodyNodes) after =
        ⟨false, true, after⟩) ∧
    (∀ domain navLanguage items,
      (embedElementsModel domain navLanguage items).length = items.length ∧
      ∀ it, it ∈ items →
        processPlaceholder it.1 domain navLanguage it.2.1 it.2.2 ∈
          embedElementsModel domain navLanguage items) := by
  refine ⟨?_, fun _ => rfl, fun _ _ _ => rfl, ?_⟩
  · intro url domain navLanguage outcome after h
    unfold processPlaceholder validateURL
    rw [h]
    rfl
  · intro domain navLanguage items
    exact ⟨List.length_map items _, fun it hit =>
      List.mem_map.mpr ⟨it, hit, rfl⟩⟩

/-- Witness for C8: the malformed-URL arm at a concrete unparsable input and
the network/HTTP arms at concrete placeholders. -/
theorem c8_failures_logged_and_skipped_witness :
    processPlaceholder "/frag.html" "example.com" "en" .networkError .nil =
      ⟨false, true, none, .nil⟩ ∧
    stepResponse .networkError .nil = ⟨false, true, .nil⟩ ∧
    stepResponse (.response false "nope" .nil) .nil = ⟨false, true, .nil⟩ :=
  ⟨c8_failures_logged_and_skipped.1 "/frag.html" "example.com" "en"
      .networkError .nil (by decide),
   c8_failures_logged_and_skipped.2.1 .nil,
   c8_failures_logged_and_skipped.2.2.1 "nope" .nil .nil⟩

/-- Claim C9.  For a candidate that passes the trust comparison and has the
insecure `http:` scheme, validation yields a `proceed` carrying the blocking
alert, whose message is the Spanish translation when the browser language's
primary subtag is `es` and the fixed English default otherwise; and the
alert does not gate anything — processing after validation is exactly the
fetch pipeline's result, whatever the outcome (dismissing the warning blocks
neither the fetch nor the insertion). -/
theorem c9_insecure_http_warning (p : ParsedURL) (domain navLanguage : String)
    (htrust : p.hostname = domain) (hproto : p.protocol = "http:") :
    checkParsedURL p domain navLanguage =
      .proceed (some (warningMessage navLanguage)) ∧
    (langOf navLanguage = "es" → warningMessage navLanguage =
      "Esta página contiene conexiones no seguras. Pulse aceptar para ignorar.") ∧
    (langOf navLanguage ≠ "es" → warningMessage navLanguage =
      "This page cotains unsecure connections. Press accept to ignore.") ∧
    (∀ outcome after,
      afterValidation (checkParsedURL p domain navLanguage) outcome after =
        ⟨(stepResponse outcome after).removed,
         (stepResponse outcome after).logged,
         some (warningMessage navLanguage),
         (stepResponse outcome after).newAfter⟩) := by
  have hc : checkParsedURL p domain navLanguage =
      .proceed (some (warningMessage navLanguage)) := by
    rw [checkParsedURL, if_neg (by simp [htrust]), if_pos hproto]
  refine ⟨hc, fun h => by rw [warningMessage, if_pos h],
    fun h => by rw [warningMessage, if_neg h], fun outcome after => by
      rw [hc]
      rfl⟩

/-- Witness for C9: an `http:` URL whose hostname equals the configured
domain, in a Spanish-locale browser. -/
theorem c9_insecure_http_warning_witness :
    checkParsedURL ⟨"http:", "example.com", ""⟩ "example.com" "es-ES" =
      .proceed (some
        "Esta página contiene conexiones no seguras. Pulse aceptar para ignorar.") ∧
    afterValidation
      (checkParsedURL ⟨"http:", "example.com", ""⟩ "example.com" "es-ES")
      .networkError .nil =
      ⟨false, true, some
        "Esta página contiene conexiones no seguras. Pulse aceptar para ignorar.",
       .nil⟩ := by
  have h := c9_insecure_http_warning ⟨"http:", "example.com", ""⟩
    "example.com" "es-ES" rfl rfl
  exact ⟨h.1, h.2.2.2 .networkError .nil⟩


/-- Claim C4 counterexample.  The claim, for *every* fragment, asserts each
script of the fragment is reinserted exactly once.  For a fragment whose
static remainder is empty — a lone `<script>` — with no following element
sibling, the fragment has one script (first conjunct), but `embedElement`
throws at the `prepend` call (second conjunct) and the run's result contains
no script at all (third conjunct): the script is not reinserted. -/
theorem c4_counterexample :
    (matchedIn "script"
      (NodeList.one (.elem "script" [] (NodeList.one (.text "x"))))).length
      = 1 ∧
    (embedElementRun
      (NodeList.one (.elem "script" [] (NodeList.one (.text "x"))))
      .nil).1 = false ∧
    (matchedIn "script" (embedElementRun
      (NodeList.one (.elem "script" [] (NodeList.one (.text "x"))))
      .nil).2).length = 0 :=
  ⟨rfl, rfl, rfl⟩

/-- Claim C4, amended: whenever a following element sibling exists after the
static remainder is inserted (`hsplit`), and the sibling forest after the
placeholder is itself free of active elements, and no link of the fragment
is nested inside a script (`hnest` — guaranteed for parsed HTML, where
script bodies are raw text), and the clones' subtrees are free of further
active elements (`hflat`, likewise guaranteed for parsed HTML):
the inserted raw markup — the fragment's static remainder — contains no
script and no link element (first and second conjuncts); the run completes
with every link clone and script clone prepended, exactly once and in
document order within each category, as freshly constructed clones, to the
front of the first following element (third conjunct); and the active
elements present anywhere in the resulting forest are exactly the script
clones, respectively the link clones, of the fragment, in order (fourth and
fifth conjuncts). -/
theorem c4_amended_active_extraction (frag after pre post : NodeList)
    (t : String) (a : List (String × String)) (cs : NodeList)
    (hnest : matchedIn "link" (removeMatched "script" frag) =
      matchedIn "link" frag)
    (hs : matchedIn "script" after = .nil)
    (hl : matchedIn "link" after = .nil)
    (hflat : NodeList.all cleanChildren
      (linkClones frag ++ scriptClones frag) = true)
    (hsplit : splitAtFirstElem (staticRemainder frag ++ after) =
      some (pre, .elem t a cs, post)) :
    matchedIn "script" (staticRemainder frag) = .nil ∧
    matchedIn "link" (staticRemainder frag) = .nil ∧
    embedElementRun frag after =
      (true, pre ++ .cons (.elem t a
        (((matchedIn "link" frag).map cloneElementOf ++
          (matchedIn "script" frag).map cloneElementOf) ++ cs)) post) ∧
    matchedIn "script" (embedElementRun frag after).2 =
      (matchedIn "script" frag).map cloneElementOf ∧
    matchedIn "link" (embedElementRun frag after).2 =
      (matchedIn "link" frag).map cloneElementOf := by
  have h1 : matchedIn "script" (staticRemainder frag) = .nil :=
    matchedIn_removeMatched_of_nil "link"
      (matchedIn_removeMatched_self "script" frag)
  have h2 : matchedIn "link" (staticRemainder frag) = .nil :=
    matchedIn_removeMatched_self "link" (removeMatched "script" frag)
  have hclean_s : matchedIn "script" (staticRemainder frag ++ after) = .nil := by
    rw [matchedIn_append, h1, hs]
    rfl
  have hclean_l : matchedIn "link" (staticRemainder frag ++ after) = .nil := by
    rw [matchedIn_append, h2, hl]
    rfl
  have hlc : linkClones frag = (matchedIn "link" frag).map cloneElementOf := by
    rw [linkClones, hnest]
  have hsc : scriptClones frag =
      (matchedIn "script" frag).map cloneElementOf := rfl
  have hrun : embedElementRun frag after =
      (true, pre ++ .cons (.elem t a
        ((linkClones frag ++ scriptClones frag) ++ cs)) post) := by
    rw [embedElementRun_eq, prependIntoFirstElem_of_split _ hsplit]
  have hres2 : (embedElementRun frag after).2 =
      pre ++ .cons (.elem t a
        ((linkClones frag ++ scriptClones frag) ++ cs)) post := by
    rw [hrun]
  have hforall := NodeList.all_iff_forall.mp hflat
  have hfl := (NodeList.forall_append.mp hforall).1
  have hfs := (NodeList.forall_append.mp hforall).2
  have hshape_l : NodeList.Forall (fun m => ∃ a2 cs2, m = .elem "link" a2 cs2)
      (linkClones frag) :=
    NodeList.forall_map
      (fun n hn => by
        obtain ⟨a2, cs2, rfl⟩ := hn
        exact ⟨copyAttrs a2, cs2, rfl⟩)
      (matchedIn_shape "link" (removeMatched "script" frag))
  have hshape_s : NodeList.Forall
      (fun m => ∃ a2 cs2, m = .elem "script" a2 cs2) (scriptClones frag) :=
    NodeList.forall_map
      (fun n hn => by
        obtain ⟨a2, cs2, rfl⟩ := hn
        exact ⟨copyAttrs a2, cs2, rfl⟩)
      (matchedIn_shape "script" frag)
  have hB_s : matchedIn "script" (linkClones frag) = .nil :=
    matchedIn_of_other_roots
      (NodeList.forall_weaken
        (fun m hm => by
          obtain ⟨⟨a2, cs2, rfl⟩, hcm⟩ := hm
          rw [cleanChildren, Bool.and_eq_true] at hcm
          exact ⟨"link", a2, cs2, rfl, by decide,
            NodeList.isNil_iff.mp hcm.1⟩)
        (NodeList.forall_combine hshape_l hfl))
  have hA_s : matchedIn "script" (scriptClones frag) = scriptClones frag :=
    matchedIn_of_matching_roots
      (NodeList.forall_weaken
        (fun m hm => by
          obtain ⟨⟨a2, cs2, rfl⟩, hcm⟩ := hm
          rw [cleanChildren, Bool.and_eq_true] at hcm
          exact ⟨a2, cs2, rfl,
            NodeList.isNil_iff.mp hcm.1⟩)
        (NodeList.forall_combine hshape_s hfs))
  have hA_l : matchedIn "link" (linkClones frag) = linkClones frag :=
    matchedIn_of_matching_roots
      (NodeList.forall_weaken
        (fun m hm => by
          obtain ⟨⟨a2, cs2, rfl⟩, hcm⟩ := hm
          rw [cleanChildren, Bool.and_eq_true] at hcm
          exact ⟨a2, cs2, rfl,
            NodeList.isNil_iff.mp hcm.2⟩)
        (NodeList.forall_combine hshape_l hfl))
  have hB_l : matchedIn "link" (scriptClones frag) = .nil :=
    matchedIn_of_other_roots
      (NodeList.forall_weaken
        (fun m hm => by
          obtain ⟨⟨a2, cs2, rfl⟩, hcm⟩ := hm
          rw [cleanChildren, Bool.and_eq_true] at hcm
          exact ⟨"script", a2, cs2, rfl, by decide,
            NodeList.isNil_iff.mp hcm.2⟩)
        (NodeList.forall_combine hshape_s hfs))
  refine ⟨h1, h2, by rw [hrun, hlc, hsc], ?_, ?_⟩
  · rw [hres2, matchedIn_after_prepend _ hclean_s hsplit, matchedIn_append,
      hB_s, hA_s, NodeList.nil_append, hsc]
  · rw [hres2, matchedIn_after_prepend _ hclean_l hsplit, matchedIn_append,
      hA_l, hB_l, NodeList.append_nil, hlc]

/-- Witness for C4 at the fragment `<p>hi</p><script src="s.js"></script>
<link rel="stylesheet">`: the static remainder is the lone `<p>`, and the
run yields the `<p>` with the link clone, then the script clone, then its
own text prepended. -/
theorem c4_amended_active_extraction_witness :
    embedElementRun
      (.cons (.elem "p" [] (NodeList.one (.text "hi")))
        (.cons (.elem "script" [("src","s.js")] .nil)
          (NodeList.one (.elem "link" [("rel","stylesheet")] .nil))))
      .nil =
      (true, NodeList.one (.elem "p" []
        (.cons (.elem "link" [("rel","stylesheet")] .nil)
          (.cons (.elem "script" [("src","s.js")] .nil)
            (NodeList.one (.text "hi")))))) :=
  (c4_amended_active_extraction
    (.cons (.elem "p" [] (NodeList.one (.text "hi")))
      (.cons (.elem "script" [("src","s.js")] .nil)
        (NodeList.one (.elem "link" [("rel","stylesheet")] .nil))))
    .nil .nil .nil "p" [] (NodeList.one (.text "hi"))
    rfl rfl rfl rfl rfl).2.2.1

/-- Claim C5 counterexample.  The claim says the cloned link elements are
prepended first and the cloned script elements after, leaving the scripts
before the links among the inserted element's children.  The code does the
opposite: for a fragment with one script and one link, the resulting `<div>`
has the link clone first and the script clone second. -/
theorem c5_counterexample :
    (embedElementRun
      (.cons (.elem "script" [] (NodeList.one (.text "x")))
        (NodeList.one (.elem "link" [("rel","stylesheet")] .nil)))
      (NodeList.one (.elem "div" [] .nil))).2 =
      NodeList.one (.elem "div" []
        (.cons (.elem "link" [("rel","stylesheet")] .nil)
          (NodeList.one (.elem "script" [] (NodeList.one (.text "x")))))) ∧
    ("link" : String) ≠ "script" :=
  ⟨rfl, by decide⟩

/-- Claim C5, amended: `embedElement` first prepends the cloned script
elements and then prepends the cloned link elements to the first element
following the placeholder, so the links end up before the scripts (and both
before the element's previous children). -/
theorem c5_amended_scripts_then_links (frag after pre post : NodeList)
    (t : String) (a : List (String × String)) (cs : NodeList)
    (hsplit : splitAtFirstElem (staticRemainder frag ++ after) =
      some (pre, .elem t a cs, post)) :
    embedElementRun frag after =
      (true, pre ++ .cons (.elem t a
        ((linkClones frag ++ scriptClones frag) ++ cs)) post) := by
  rw [embedElementRun_eq, prependIntoFirstElem_of_split _ hsplit]

/-- Witness for C5 at a fragment with one script and one link and a `<div>`
following the placeholder. -/
theorem c5_amended_scripts_then_links_witness :
    embedElementRun
      (.cons (.elem "script" [] (NodeList.one (.text "x")))
        (NodeList.one (.elem "link" [("rel","stylesheet")] .nil)))
      (NodeList.one (.elem "div" [] .nil)) =
      (true, NodeList.one (.elem "div" []
        (.cons (.elem "link" [("rel","stylesheet")] .nil)
          (NodeList.one (.elem "script" [] (NodeList.one (.text "x"))))))) :=
  c5_amended_scripts_then_links
    (.cons (.elem "script" [] (NodeList.one (.text "x")))
      (NodeList.one (.elem "link" [("rel","stylesheet")] .nil)))
    (NodeList.one (.elem "div" [] .nil))
    .nil .nil "div" [] .nil rfl

/-- Claim C6.  For a parser-canonical tag selector (`hsel`) and matched
elements whose attribute names are distinct (`hattrs`, guaranteed for
parser-produced elements), the clone array of `getClonedElements` equals the
match list itself — each clone has the identical tag, identical attribute
list and identical inner content to its source, and the clones appear in
document order (first conjunct); and with `remove` set, the container
afterwards has no element matching the selector: every matched original is
gone (second conjunct). -/
theorem c6_cloner_faithful (children : NodeList) (sel : String)
    (hsel : createElementTag (tagNameOf sel) = sel)
    (hattrs : NodeList.all attrsOK (matchedIn sel children) = true) :
    (getClonedElements children sel true).1 = matchedIn sel children ∧
    matchedIn sel ((getClonedElements children sel true).2) = .nil := by
  have hforall := NodeList.all_iff_forall.mp hattrs
  have hshape := matchedIn_shape sel children
  have hid : NodeList.Forall (fun n => cloneElementOf n = n)
      (matchedIn sel children) :=
    NodeList.forall_weaken
      (fun n hn => by
        obtain ⟨⟨a2, cs2, rfl⟩, hok⟩ := hn
        rw [attrsOK] at hok
        exact cloneElementOf_eq_self hsel (of_decide_eq_true hok))
      (NodeList.forall_combine hshape hforall)
  exact ⟨NodeList.map_eq_self_of_forall hid,
    matchedIn_removeMatched_self sel children⟩

/-- Witness for C6 on a script element carrying two attributes and inner
text: the clone array is that very element, and detaching empties the
container of scripts. -/
theorem c6_cloner_faithful_witness :
    (getClonedElements
      (NodeList.one (.elem "script" [("src","a.js"), ("defer","")]
        (NodeList.one (.text "x")))) "script" true).1 =
      NodeList.one (.elem "script" [("src","a.js"), ("defer","")]
        (NodeList.one (.text "x"))) ∧
    matchedIn "script" ((getClonedElements
      (NodeList.one (.elem "script" [("src","a.js"), ("defer","")]
        (NodeList.one (.text "x")))) "script" true).2) = .nil := by
  have h := c6_cloner_faithful
    (NodeList.one (.elem "script" [("src","a.js"), ("defer","")]
      (NodeList.one (.text "x")))) "script" rfl rfl
  exact ⟨h.1, h.2⟩

/-- Claim C10.  For a fragment whose static remainder is empty after the
script and link extraction (`hempty`, e.g. a fragment consisting only of a
script) with a non-blank body text: `insertAdjacentHTML` inserts nothing, so
the `nextElementSibling` lookup falls through to the placeholder's
pre-existing following siblings.  If no element sibling exists there, the
`prepend` call throws, the error is caught by the per-placeholder `catch`
(logged) and `placeholder.remove()` is skipped — nothing is inserted and the
placeholder stays (first conjunct).  If a pre-existing element sibling does
exist, the clones are prepended into that unrelated element and the
placeholder is removed (second conjunct). -/
theorem c10_empty_static_remainder (frag after : NodeList)
    (bodyText : String)
    (hempty : staticRemainder frag = .nil)
    (hbody : ¬ jsTrim bodyText = "") :
    (splitAtFirstElem after = none →
      embedElementRun frag after = (false, after) ∧
      stepResponse (.response true bodyText frag) after =
        ⟨false, true, after⟩) ∧
    (∀ pre post t a cs,
      splitAtFirstElem after = some (pre, .elem t a cs, post) →
      embedElementRun frag after =
        (true, pre ++ .cons (.elem t a
          ((linkClones frag ++ scriptClones frag) ++ cs)) post) ∧
      stepResponse (.response true bodyText frag) after =
        ⟨true, false, pre ++ .cons (.elem t a
          ((linkClones frag ++ scriptClones frag) ++ cs)) post⟩) := by
  have hseq : staticRemainder frag ++ after = after := by
    rw [hempty]
    rfl
  constructor
  · intro hnone
    have hrun : embedElementRun frag after = (false, after) := by
      rw [embedElementRun_eq, hseq,
        prependIntoFirstElem_none_of_split_none _ hnone]
    refine ⟨hrun, ?_⟩
    rw [stepResponse, if_pos rfl, if_neg hbody, hrun]
  · intro pre post t a cs hsome
    have hrun : embedElementRun frag after =
        (true, pre ++ .cons (.elem t a
          ((linkClones frag ++ scriptClones frag) ++ cs)) post) := by
      rw [embedElementRun_eq, hseq, prependIntoFirstElem_of_split _ hsome]
    refine ⟨hrun, ?_⟩
    rw [stepResponse, if_pos rfl, if_neg hbody, hrun]

/-- Witness for C10 on the fragment `<script>x</script>`: with no following
element the placeholder survives and nothing is inserted; with a following
`<div>` the script clone is prepended into that `<div>` and the placeholder
is removed. -/
theorem c10_empty_static_remainder_witness :
    stepResponse
      (.response true "<script>x</script>"
        (NodeList.one (.elem "script" [] (NodeList.one (.text "x")))))
      .nil = ⟨false, true, .nil⟩ ∧
    stepResponse
      (.response true "<script>x</script>"
        (NodeList.one (.elem "script" [] (NodeList.one (.text "x")))))
      (NodeList.one (.elem "div" [] .nil)) =
      ⟨true, false, NodeList.one (.elem "div" []
        (NodeList.one (.elem "script" [] (NodeList.one (.text "x")))))⟩ := by
  have hn := (c10_empty_static_remainder
    (NodeList.one (.elem "script" [] (NodeList.one (.text "x"))))
    .nil "<script>x</script>" rfl (by decide)).1 rfl
  have hsome := (c10_empty_static_remainder
    (NodeList.one (.elem "script" [] (NodeList.one (.text "x"))))
    (NodeList.one (.elem "div" [] .nil)) "<script>x</script>" rfl
    (by decide)).2 .nil .nil "div" [] .nil rfl
  exact ⟨hn.2, hsome.2⟩
